import Mathlib

/-!
# Verification of the legacy partition-specification expansion engine

Shallow embedding of `src/backend/parser/parse_partition_gp.c` (GPDB legacy
partition syntax expansion).  Partition-key values are modelled as `Int`
(the single-column integer partition key that the range claims are about);
the catalog comparison support function becomes a three-way integer
comparison, and the compiled "+" expression of the successor evaluator
becomes integer addition by the EVERY step.  PostgreSQL `List *` values
(where `NIL == NULL` is the empty list) become Lean lists, `ereport(ERROR)`
becomes an `Except` error value, and the in-place mutation of
`deduceImplicitRangeBounds` becomes explicit state passing.
-/

set_option autoImplicit false

namespace PartitionGp

/-- Error taxonomy: each constructor corresponds to one `ereport(ERROR)` /
`elog(ERROR)` site in `parse_partition_gp.c`.  `OutOfFuel` is an artifact of
the fuel-bounded loop embedding (the C `while` loop has no fuel); the claims
are always settled with enough fuel for it not to occur. -/
inductive PartErr
  /-- "EVERY parameter too small" -/
  | NonMonotonicStep
  /-- "END parameter not reached before type overflows" -/
  | RangeOverflow
  /-- "missing boundary specification in partition ..." -/
  | MissingBoundarySpecification
  /-- "invalid boundary specification for RANGE/LIST partition" (IsA check) -/
  | InvalidBoundarySpec
  /-- "invalid number of start/end/every values" / "VALUES specification with
  more than one column not allowed" -/
  | InvalidBoundaryArity
  /-- "EVERY clause requires START and END" -/
  | EveryRequiresStartEnd
  /-- "multiple default partitions are not allowed" -/
  | MultipleDefaultPartitions
  /-- "DEFAULT COLUMN ENCODING clause specified more than once for partition" -/
  | MultipleDefaultEncodings
  /-- fuel exhaustion artifact of the embedding, see above -/
  | OutOfFuel
  deriving DecidableEq, Repr

/-- A bound datum as stored in `PartitionBoundSpec.lowerdatums/upperdatums`:
either a `Const` with an integer `constvalue`, or one of the `ColumnRef`
sentinels `minvalue` / `maxvalue` synthesized by `deduceImplicitRangeBounds`. -/
inductive PartDatum
  | val (v : Int)
  | minvalue
  | maxvalue
  deriving DecidableEq, Repr

/-- `((Const *) lfirst(lc))->constvalue`.  The comparator only ever runs
before sentinels are synthesized, so the sentinel value is never read;
0 stands for the garbage a misread `ColumnRef` node would yield. -/
def constvalue : PartDatum → Int
  | .val v => v
  | .minvalue => 0
  | .maxvalue => 0

/-- `PartitionBoundSpec`: the fields of the C node that
`parse_partition_gp.c` reads or writes.  `listdatums` holds the LIST
strategy values.  An empty list models `NIL`/NULL. -/
structure PartBound where
  is_default : Bool := false
  lowerdatums : List PartDatum := []
  upperdatums : List PartDatum := []
  listdatums : List Int := []
  deriving DecidableEq, Repr

/-- `ColumnReferenceStorageDirective`: a column-encoding clause, either
column-specific (`deflt = false`, names `column`) or a level default
(`deflt = true`).  `encoding` abstracts the `DefElem` payload list. -/
structure ColumnReferenceStorageDirective where
  column : String := ""
  deflt : Bool := false
  encoding : Int := 0
  deriving DecidableEq, Repr

/-- The fields of the generated `CreateStmt` that this file reasons about
(the rest of `makePartitionCreateStmt` copies parent-relation data that no
claim mentions). -/
structure CreateStmt where
  relname : String := ""
  partbound : PartBound := {}
  options : List (String × String) := []
  accessMethod : Option String := none
  attr_encodings : List ColumnReferenceStorageDirective := []
  deriving DecidableEq, Repr

def dummyStmt : CreateStmt := {}

/-- `GpPartitionRangeSpec` / `GpPartitionListSpec` boundary clause of one
partition element.  `rangeSpec` carries the `partStart`/`partEnd` value
lists (length-checked against `partnatts` = 1), the END edge
(`PART_EDGE_INCLUSIVE`), and the `partEvery` value list. -/
inductive GpPartBoundSpec
  | rangeSpec (partStart : Option (List Int)) (partEnd : Option (List Int))
      (endIncl : Bool) (partEvery : Option (List Int))
  | listSpec (partValues : List (List Int))
  deriving DecidableEq, Repr

/-- `GpPartDefElem`: one partition element of the specification. -/
structure GpPartDefElem where
  partName : Option String := none
  isDefault : Bool := false
  boundSpec : Option GpPartBoundSpec := none
  options : List (String × String) := []
  colencs : List ColumnReferenceStorageDirective := []
  accessMethod : Option String := none
  deriving DecidableEq, Repr

/-- An entry of `gpPartSpec->partDefElems`: either a partition element or an
interleaved partition-configuration-level encoding clause. -/
inductive PartDefOrEnc
  | defElem (e : GpPartDefElem)
  | enc (c : ColumnReferenceStorageDirective)
  deriving DecidableEq, Repr

/-- `PartitionKey->strategy`, restricted to the two strategies
`generatePartitions` dispatches on. -/
inductive PartStrategy
  | range
  | list
  deriving DecidableEq, Repr

/-- `partname_comp`: naming state threaded through expansion. -/
structure PartnameComp where
  tablename : Option String := none
  level : Nat := 0
  partnum : Nat := 0
  deriving DecidableEq, Repr

/-- `PartEveryIterator` (the fields that drive the bound iteration; the
expression-state fields are replaced by the `plus` function passed to
`nextPartBound`). -/
structure PartEveryIterator where
  endVal : Int
  currStart : Int
  currEnd : Int
  called : Bool
  endReached : Bool
  deriving DecidableEq, Repr

/-- Result of running the `while (nextPartBound(boundIter))` loop:
the collected `(currStart, currEnd)` pairs, with the loop's outcome. -/
inductive GenResult
  | done (pairs : List (Int × Int))
  | failed (pairs : List (Int × Int)) (e : PartErr)
  | outOfFuel (pairs : List (Int × Int))
  deriving DecidableEq, Repr

/-! ## Bound comparator (`qsort_stmt_cmp`) and sorting -/

/-- The partition support (btree cmp) function on the integer key:
`DatumGetInt32(FunctionCall2Coll(&partsupfunc[i], ...))`. -/
def cmpInt (x y : Int) : Int :=
  if x < y then -1 else if y < x then 1 else 0

/-- The column-by-column comparison loop shared by all four datum branches of
`qsort_stmt_cmp`: `for (i = 0; i < partnatts; i++) { ... if (cmpval != 0)
break; }`, with the column count given by the (equal) list lengths. -/
def cmpDatumLists : List PartDatum → List PartDatum → Int
  | x :: xs, y :: ys =>
    let c := cmpInt (constvalue x) (constvalue y)
    if c ≠ 0 then c else cmpDatumLists xs ys
  | _, _ => 0

/-- `qsort_stmt_cmp`: comparator over generated `CreateStmt`s used by
`list_qsort` in `deduceImplicitRangeBounds`.  Mirrors the C branch structure:
default check first, then lower-vs-lower, upper-vs-upper, lower-vs-upper
(with the equal-case flip to 1), upper-vs-lower (no flip), else the initial
`cmpval = 0`. -/
def qsort_stmt_cmp (a b : CreateStmt) : Int :=
  let b1 := a.partbound
  let b2 := b.partbound
  if b1.is_default ≠ b2.is_default then
    if b2.is_default then 1 else -1
  else if b1.lowerdatums ≠ [] ∧ b2.lowerdatums ≠ [] then
    cmpDatumLists b1.lowerdatums b2.lowerdatums
  else if b1.upperdatums ≠ [] ∧ b2.upperdatums ≠ [] then
    cmpDatumLists b1.upperdatums b2.upperdatums
  else if b1.lowerdatums ≠ [] ∧ b2.upperdatums ≠ [] then
    let c := cmpDatumLists b1.lowerdatums b2.upperdatums
    if c = 0 then 1 else c
  else if b1.upperdatums ≠ [] ∧ b2.lowerdatums ≠ [] then
    cmpDatumLists b1.upperdatums b2.lowerdatums
  else 0

/-- Insertion step of the comparison sort modelling `list_qsort`. -/
def insertCmp {α : Type} (cmp : α → α → Int) (x : α) : List α → List α
  | [] => [x]
  | y :: ys => if cmp x y ≤ 0 then x :: y :: ys else y :: insertCmp cmp x ys

/-- `list_qsort(origstmts, qsort_stmt_cmp, key)` modelled as a comparison
sort: an element is placed after every element it compares `> 0` against. -/
def qsortBy {α : Type} (cmp : α → α → Int) : List α → List α
  | [] => []
  | x :: xs => insertCmp cmp x (qsortBy cmp xs)

/-! ## Implicit bound resolver (`deduceImplicitRangeBounds`) -/

/-- One step of the `foreach` fill walk of `deduceImplicitRangeBounds`:
a missing lower bound is taken from the already-processed predecessor's
upper bound (`prevstmt`), or the `minvalue` sentinel with no predecessor;
a missing upper bound from the not-yet-processed successor's lower bound
(`lc->next`), or the `maxvalue` sentinel with no successor. -/
def fillStmt (prev : Option CreateStmt) (stmt : CreateStmt)
    (rest : List CreateStmt) : CreateStmt :=
  let pb := stmt.partbound
  let pb :=
    if pb.lowerdatums = [] then
      { pb with lowerdatums :=
          match prev with
          | some p => p.partbound.upperdatums
          | none => [PartDatum.minvalue] }
    else pb
  let pb :=
    if pb.upperdatums = [] then
      { pb with upperdatums :=
          match rest with
          | next :: _ => next.partbound.lowerdatums
          | [] => [PartDatum.maxvalue] }
    else pb
  { stmt with partbound := pb }

/-- The fill walk itself, threading `prevstmt` through the list. -/
def fillPass (prev : Option CreateStmt) : List CreateStmt → List CreateStmt
  | [] => []
  | stmt :: rest =>
    let s := fillStmt prev stmt rest
    s :: fillPass (some s) rest

/-- `deduceImplicitRangeBounds`: sort by `qsort_stmt_cmp`, then fill the
implicit bounds in one left-to-right walk, returning the (sorted) list. -/
def deduceImplicitRangeBounds (origstmts : List CreateStmt) : List CreateStmt :=
  fillPass none (qsortBy qsort_stmt_cmp origstmts)

/-! ## Successor evaluator and bound iterator -/

/-- The compiled `(Param #1) + step` expression produced by
`initPlusExprState`, evaluated at the current bound: on the integer key the
`pg_catalog."+"` operator is integer addition. -/
def plusExpr (step : Int) : Int → Int := fun x => x + step

/-- `canonicalizeRangeEnd`: an inclusive END is replaced by its successor,
computed by the same plus-expression machinery (`initPlusExprState`) with
the literal integer 1 as the step; an exclusive END is returned unchanged. -/
def canonicalizeRangeEnd (endVal : Int) (endIncl : Bool) : Int :=
  if endIncl then plusExpr 1 endVal else endVal

/-- The iterator state built by `initPartEveryIterator`:
`currEnd = startVal`, `currStart = 0`, flags cleared. -/
def initIter (startVal endVal : Int) : PartEveryIterator :=
  { endVal := endVal, currStart := 0, currEnd := startVal,
    called := false, endReached := false }

/-- `nextPartBound`.  `plus = some f` models a present EVERY clause with its
compiled successor expression `f`; `plus = none` the no-EVERY single-pair
branch.  Returns `ok none` for "no more bounds", `ok (some iter)` for a new
`(currStart, currEnd)` pair, `error` for the two non-advance reports:
`NonMonotonicStep` ("EVERY parameter too small") when `firstcall`,
`RangeOverflow` ("END parameter not reached before type overflows")
otherwise. -/
def nextPartBound (plus : Option (Int → Int)) (iter0 : PartEveryIterator) :
    Except PartErr (Option PartEveryIterator) :=
  let firstcall := !iter0.called
  let iter1 := { iter0 with called := true }
  match plus with
  | some f =>
    if iter1.endReached then .ok none
    else
      let next := f iter1.currEnd
      let iter2 := { iter1 with currStart := iter1.currEnd }
      if iter2.endVal ≤ next then
        .ok (some { iter2 with endReached := true, currEnd := iter2.endVal })
      else if next ≤ iter2.currEnd then
        .error (if firstcall then .NonMonotonicStep else .RangeOverflow)
      else
        .ok (some { iter2 with currEnd := next })
  | none =>
    if !firstcall then .ok none
    else .ok (some { iter1 with currStart := iter1.currEnd, currEnd := iter1.endVal })

/-- The `while (nextPartBound(boundIter))` loop of `generateRangePartitions`,
collecting the `(currStart, currEnd)` pair of each successful call. -/
def genBoundsAux (plus : Option (Int → Int)) :
    Nat → PartEveryIterator → GenResult
  | 0, _ => .outOfFuel []
  | fuel + 1, iter =>
    match nextPartBound plus iter with
    | .error e => .failed [] e
    | .ok none => .done []
    | .ok (some iter2) =>
      match genBoundsAux plus fuel iter2 with
      | .done ps => .done ((iter2.currStart, iter2.currEnd) :: ps)
      | .failed ps e => .failed ((iter2.currStart, iter2.currEnd) :: ps) e
      | .outOfFuel ps => .outOfFuel ((iter2.currStart, iter2.currEnd) :: ps)

/-! ## Option/encoding merger -/

/-- `split_encoding_clauses`: split a directive list into column-specific
clauses (appended in order) and the at-most-one default clause; a second
default at the same level is the fatal "specified more than once" error. -/
def split_encoding_clauses :
    List ColumnReferenceStorageDirective →
    List ColumnReferenceStorageDirective →
    Option ColumnReferenceStorageDirective →
    Except PartErr
      (List ColumnReferenceStorageDirective × Option ColumnReferenceStorageDirective)
  | [], non_def, def_ => .ok (non_def, def_)
  | c :: rest, non_def, def_ =>
    if c.deflt then
      match def_ with
      | some _ => .error .MultipleDefaultEncodings
      | none => split_encoding_clauses rest non_def (some c)
    else
      split_encoding_clauses rest (non_def ++ [c]) def_

/-- `merge_partition_encoding(pstate, elem_colencs, penc)`: see the rule
comment in the C source (element-specific columns win; element default is
fully authoritative; otherwise the config default is appended last).  The
two early-return branches (`penc == NULL`, `elem_colencs == NULL`) are the
C NULL-list shortcuts. -/
def merge_partition_encoding (elem_colencs penc : List ColumnReferenceStorageDirective) :
    Except PartErr (List ColumnReferenceStorageDirective) :=
  if penc = [] then .ok elem_colencs
  else if elem_colencs = [] then .ok penc
  else
    match split_encoding_clauses elem_colencs [] none with
    | .error e => .error e
    | .ok (elem_nondefs, elem_def) =>
      match split_encoding_clauses penc [] none with
      | .error e => .error e
      | .ok (part_nondefs, part_def) =>
        let merged := part_nondefs.foldl
          (fun acc pd =>
            if elem_nondefs.any (fun ed => ed.column == pd.column) then acc
            else acc ++ [pd])
          elem_colencs
        if elem_def.isSome then .ok merged
        else
          match part_def with
          | some pd => .ok (merged ++ [pd])
          | none => .ok merged

/-! ## Naming and statement construction -/

/-- `extract_tablename_from_options`: find the first "tablename" option,
remove it from the option list, and return its value. -/
def extract_tablename_from_options :
    List (String × String) → Option String × List (String × String)
  | [] => (none, [])
  | (k, v) :: rest =>
    if k = "tablename" then (some v, rest)
    else
      let (t, rest2) := extract_tablename_from_options rest
      (t, (k, v) :: rest2)

/-- `makeObjectName(name1, name2, label)`: underscore-joined object name
(NAMEDATALEN truncation is not modelled; the claims use short names). -/
def makeObjectName (name1 name2 label : String) : String :=
  name1 ++ "_" ++ name2 ++ "_" ++ label

/-- `ChoosePartitionName`: "prt_<partname>" when the element is named,
otherwise "prt_<partnum>", joined under the parent name and level string. -/
def ChoosePartitionName (parentname levelstr : String)
    (partname : Option String) (partnum : Nat) : String :=
  match partname with
  | some p => makeObjectName parentname levelstr ("prt_" ++ p)
  | none => makeObjectName parentname levelstr ("prt_" ++ toString partnum)

/-- `makePartitionCreateStmt`: the legacy "tablename" override, when set in
`partnamecomp`, is used verbatim as the child name (and the per-level
counter is not consumed); otherwise a name is chosen, incrementing
`partnum`.  Options, access method, and column encodings are copied from
the element. -/
def makePartitionCreateStmt (parentname : String) (partname : Option String)
    (boundspec : PartBound) (elem : GpPartDefElem) (pc : PartnameComp) :
    CreateStmt × PartnameComp :=
  match pc.tablename with
  | some t =>
    ({ relname := t, partbound := boundspec, options := elem.options,
       accessMethod := elem.accessMethod, attr_encodings := elem.colencs }, pc)
  | none =>
    let n := pc.partnum + 1
    ({ relname := ChoosePartitionName parentname (toString pc.level) partname n,
       partbound := boundspec, options := elem.options,
       accessMethod := elem.accessMethod, attr_encodings := elem.colencs },
     { pc with partnum := n })

/-! ## RANGE / LIST / DEFAULT generation -/

/-- The `list_length(...) != partkey->partnatts` check (partnatts = 1) and
`linitial` extraction applied to a START/END/EVERY value list. -/
def parseBoundVals (vals : Option (List Int)) : Except PartErr (Option Int) :=
  match vals with
  | none => .ok none
  | some vs => if vs.length = 1 then .ok (some (vs.headD 0)) else .error .InvalidBoundaryArity

/-- The body of the generation loop of `generateRangePartitions`: one
`CreateStmt` per iterator pair, with `lowerdatums`/`upperdatums` only set
when START/END were declared, and `_<n>` name suffixes when EVERY multiplies
a named element (the counter `i` increments only in that branch). -/
def buildRangeStmts (parentname : String) (elem : GpPartDefElem)
    (hasStart hasEnd hasEvery : Bool) :
    List (Int × Int) → PartnameComp → Nat → List CreateStmt × PartnameComp
  | [], pc, _ => ([], pc)
  | (lo, hi) :: rest, pc, i =>
    let boundspec : PartBound :=
      { is_default := false,
        lowerdatums := if hasStart then [PartDatum.val lo] else [],
        upperdatums := if hasEnd then [PartDatum.val hi] else [],
        listdatums := [] }
    let (i2, partname) :=
      if hasEvery ∧ elem.partName.isSome then
        (i + 1, some (elem.partName.getD "" ++ "_" ++ toString (i + 1)))
      else (i, elem.partName)
    let (stmt, pc2) := makePartitionCreateStmt parentname partname boundspec elem pc
    let (rest2, pc3) := buildRangeStmts parentname elem hasStart hasEnd hasEvery rest pc2 i2
    (stmt :: rest2, pc3)

/-- `generateRangePartitions`: boundary-spec checks, START/END/EVERY
extraction (EVERY is dropped when the legacy "tablename" override is set),
END canonicalization, then the iterator loop. -/
def generateRangePartitions (parentname : String) (elem : GpPartDefElem)
    (pc : PartnameComp) (fuel : Nat) :
    Except PartErr (List CreateStmt × PartnameComp) :=
  match elem.boundSpec with
  | none => .error .MissingBoundarySpecification
  | some (.listSpec _) => .error .InvalidBoundarySpec
  | some (.rangeSpec partStart partEnd endIncl partEvery) =>
    match parseBoundVals partStart with
    | .error e => .error e
    | .ok start =>
      match parseBoundVals partEnd with
      | .error e => .error e
      | .ok startEnd =>
        let endVal : Int :=
          match startEnd with
          | some b => canonicalizeRangeEnd b endIncl
          | none => 0
        match (if pc.tablename = none then parseBoundVals partEvery else .ok none) with
        | .error e => .error e
        | .ok every =>
          if every.isSome ∧ (start = none ∨ startEnd = none) then
            .error .EveryRequiresStartEnd
          else
            match genBoundsAux (every.map plusExpr) fuel (initIter (start.getD 0) endVal) with
            | .done pairs =>
              .ok (buildRangeStmts parentname elem start.isSome startEnd.isSome
                     every.isSome pairs pc 0)
            | .failed _ e => .error e
            | .outOfFuel _ => .error .OutOfFuel

/-- The `foreach` arity check and `linitial` collection over the VALUES
tuples of a LIST element. -/
def collectListDatums : List (List Int) → Except PartErr (List Int)
  | [] => .ok []
  | tv :: rest =>
    if tv.length = 1 then
      match collectListDatums rest with
      | .error e => .error e
      | .ok ds => .ok (tv.headD 0 :: ds)
    else .error .InvalidBoundaryArity

/-- `generateListPartition`: one `CreateStmt` carrying the collected list
datums (`transformPartitionBound` is the identity on the already-typed
integer values). -/
def generateListPartition (parentname : String) (elem : GpPartDefElem)
    (pc : PartnameComp) : Except PartErr (List CreateStmt × PartnameComp) :=
  match elem.boundSpec with
  | none => .error .MissingBoundarySpecification
  | some (.rangeSpec _ _ _ _) => .error .InvalidBoundarySpec
  | some (.listSpec partValues) =>
    match collectListDatums partValues with
    | .error e => .error e
    | .ok listdatums =>
      let boundspec : PartBound :=
        { is_default := false, lowerdatums := [], upperdatums := [],
          listdatums := listdatums }
      let (stmt, pc2) := makePartitionCreateStmt parentname elem.partName boundspec elem pc
      .ok ([stmt], pc2)

/-- `generateDefaultPartition`: a single `CreateStmt` with
`is_default = true` and no datums. -/
def generateDefaultPartition (parentname : String) (elem : GpPartDefElem)
    (pc : PartnameComp) : List CreateStmt × PartnameComp :=
  let boundspec : PartBound :=
    { is_default := true, lowerdatums := [], upperdatums := [], listdatums := [] }
  let (stmt, pc2) := makePartitionCreateStmt parentname elem.partName boundspec elem pc
  ([stmt], pc2)

/-! ## Orchestrator (`generatePartitions`) -/

/-- The element's resolved access method: its own, or the parent's when it
has none (`if (elem->accessMethod == NULL) elem->accessMethod = parentaccessmethod`). -/
def resolvedAccessMethod (elemAm parentam : Option String) : Option String :=
  match elemAm with
  | none => parentam
  | some a => some a

/-- The per-element resolution steps at the head of the `foreach` body of
`generatePartitions`: extract the legacy "tablename" override from the
element options, inherit parent options and access method, and merge the
column encodings exactly when the resolved access method is "aoco". -/
def resolveElem (parentoptions : List (String × String)) (parentam : Option String)
    (penc_cls : List ColumnReferenceStorageDirective) (elem : GpPartDefElem) :
    Except PartErr (Option String × GpPartDefElem) :=
  let (tbl, opts) := extract_tablename_from_options elem.options
  let opts := if opts = [] then parentoptions else opts
  let am := resolvedAccessMethod elem.accessMethod parentam
  match (if am = some "aoco" then merge_partition_encoding elem.colencs penc_cls
         else .ok elem.colencs) with
  | .error e => .error e
  | .ok colencs =>
    .ok (tbl, { elem with options := opts, accessMethod := am, colencs := colencs })

/-- The dispatch of one partition element: resolve it, store the tablename
override in `partcomp`, then generate DEFAULT / RANGE / LIST descriptors. -/
def processPartDefElem (parentname : String) (strategy : PartStrategy)
    (parentoptions : List (String × String)) (parentam : Option String)
    (penc_cls : List ColumnReferenceStorageDirective)
    (elem : GpPartDefElem) (pc : PartnameComp) (fuel : Nat) :
    Except PartErr (List CreateStmt × PartnameComp) :=
  match resolveElem parentoptions parentam penc_cls elem with
  | .error e => .error e
  | .ok (tbl, elem2) =>
    let pc := { pc with tablename := tbl }
    if elem2.isDefault then .ok (generateDefaultPartition parentname elem2 pc)
    else
      match strategy with
      | .range => generateRangePartitions parentname elem2 pc fuel
      | .list => generateListPartition parentname elem2 pc

/-- The DEFAULT-first reordering pass: the (at most one) DEFAULT element is
moved to the front (`lcons`), every other element appended in declaration
order; a second DEFAULT is the "multiple default partitions" error. -/
def moveDefaultFirst :
    List GpPartDefElem → List GpPartDefElem → Bool →
    Except PartErr (List GpPartDefElem)
  | [], acc, _ => .ok acc
  | e :: rest, acc, seenDefault =>
    if e.isDefault then
      if seenDefault then .error .MultipleDefaultPartitions
      else moveDefaultFirst rest (e :: acc) true
    else moveDefaultFirst rest (acc ++ [e]) seenDefault

/-- The `IsA(n, ColumnReferenceStorageDirective)` filter over
`partDefElems`. -/
def collectEncs : List PartDefOrEnc → List ColumnReferenceStorageDirective
  | [] => []
  | .enc c :: rest => c :: collectEncs rest
  | .defElem _ :: rest => collectEncs rest

/-- The `IsA(n, GpPartDefElem)` filter over `partDefElems`. -/
def collectElems : List PartDefOrEnc → List GpPartDefElem
  | [] => []
  | .defElem e :: rest => e :: collectElems rest
  | .enc _ :: rest => collectElems rest

/-- The main `foreach` loop over the reordered elements, concatenating each
element's descriptors and threading the naming state. -/
def generatePartitionsLoop (parentname : String) (strategy : PartStrategy)
    (parentoptions : List (String × String)) (parentam : Option String)
    (penc_cls : List ColumnReferenceStorageDirective) (fuel : Nat) :
    List GpPartDefElem → PartnameComp →
    Except PartErr (List CreateStmt × PartnameComp)
  | [], pc => .ok ([], pc)
  | e :: rest, pc =>
    match processPartDefElem parentname strategy parentoptions parentam penc_cls e pc fuel with
    | .error err => .error err
    | .ok (parts, pc2) =>
      match generatePartitionsLoop parentname strategy parentoptions parentam
              penc_cls fuel rest pc2 with
      | .error err => .error err
      | .ok (parts2, pc3) => .ok (parts ++ parts2, pc3)

/-- `generatePartitions`: remove "tablename" from the parent options, merge
the parent-table-level encodings into the partition-configuration-level
ones, reorder DEFAULT first, run the element loop, and for the RANGE
strategy pass the result through `deduceImplicitRangeBounds` (whose sorted
list is what is returned). -/
def generatePartitions (parentname : String) (strategy : PartStrategy)
    (level : Nat) (partDefElems : List PartDefOrEnc)
    (parentoptions : List (String × String)) (parentam : Option String)
    (parentattenc : List ColumnReferenceStorageDirective) (fuel : Nat) :
    Except PartErr (List CreateStmt) :=
  match merge_partition_encoding (collectEncs partDefElems) parentattenc with
  | .error e => .error e
  | .ok penc_cls =>
    match moveDefaultFirst (collectElems partDefElems) [] false with
    | .error e => .error e
    | .ok elems =>
      match generatePartitionsLoop parentname strategy
              (extract_tablename_from_options parentoptions).2 parentam
              penc_cls fuel elems { tablename := none, level := level, partnum := 0 } with
      | .error e => .error e
      | .ok (result, _) =>
        match strategy with
        | .range => .ok (deduceImplicitRangeBounds result)
        | .list => .ok result

/-- Modelled from the spec: stage 5 of §4.8 claims the returned descriptor
list keeps the natural (DEFAULT-first) processing order for list and range
alike, with the boundary sort internal only.  This definition is that
claimed behavior: the same pipeline as `generatePartitions` but returning
the loop's natural-order output without the `deduceImplicitRangeBounds`
reordering.  It exists to be compared against `generatePartitions`. -/
def naturalOrderPartitionsSpec (parentname : String) (strategy : PartStrategy)
    (level : Nat) (partDefElems : List PartDefOrEnc)
    (parentoptions : List (String × String)) (parentam : Option String)
    (parentattenc : List ColumnReferenceStorageDirective) (fuel : Nat) :
    Except PartErr (List CreateStmt) :=
  match merge_partition_encoding (collectEncs partDefElems) parentattenc with
  | .error e => .error e
  | .ok penc_cls =>
    match moveDefaultFirst (collectElems partDefElems) [] false with
    | .error e => .error e
    | .ok elems =>
      match generatePartitionsLoop parentname strategy
              (extract_tablename_from_options parentoptions).2 parentam
              penc_cls fuel elems { tablename := none, level := level, partnum := 0 } with
      | .error e => .error e
      | .ok (result, _) => .ok result

end PartitionGp

namespace PartitionGp

/-! ## Helper lemmas -/

theorem getLastD_congr {α : Type} (l : List α) (d1 d2 : α) (h : l ≠ []) :
    l.getLastD d1 = l.getLastD d2 := by
  cases l with
  | nil => exact absurd rfl h
  | cons a t =>
    cases t with
    | nil => rfl
    | cons b t2 =>
      show (b :: t2).getLastD a = (b :: t2).getLastD a
      rfl

theorem getLastD_cons_cons {α : Type} (a b d : α) (l : List α) :
    (a :: b :: l).getLastD d = (b :: l).getLastD d := by
  show (b :: l).getLastD a = (b :: l).getLastD d
  exact getLastD_congr _ _ _ (by simp)

/-! ## C2: ordering of DEFAULT descriptors -/

/-- C2: the claim says `qsort_stmt_cmp` orders a DEFAULT descriptor strictly
after a non-DEFAULT one.  The code does the opposite: with `b1` non-DEFAULT
and `b2` DEFAULT it returns 1 (placing `b1` after `b2`), and with `b1`
DEFAULT it returns -1 (placing `b1` before `b2`), so in the sorted order the
DEFAULT descriptor comes FIRST — contradicting the code's own comment
"Sort DEFAULT partitions last".  This theorem evaluates the comparator and
the sort at such a failing input. -/
theorem qsort_stmt_cmp_sorts_default_first :
    qsort_stmt_cmp
        { relname := "nd", partbound := { lowerdatums := [.val 1], upperdatums := [.val 2] } }
        { relname := "d", partbound := { is_default := true } } = 1 ∧
    qsort_stmt_cmp
        { relname := "d", partbound := { is_default := true } }
        { relname := "nd", partbound := { lowerdatums := [.val 1], upperdatums := [.val 2] } } = -1 ∧
    qsortBy qsort_stmt_cmp
        [ { relname := "nd", partbound := { lowerdatums := [.val 1], upperdatums := [.val 2] } },
          { relname := "d", partbound := { is_default := true } } ]
      = [ { relname := "d", partbound := { is_default := true } },
          { relname := "nd", partbound := { lowerdatums := [.val 1], upperdatums := [.val 2] } } ] ∧
    qsortBy qsort_stmt_cmp
        [ { relname := "d", partbound := { is_default := true } },
          { relname := "nd", partbound := { lowerdatums := [.val 1], upperdatums := [.val 2] } } ]
      = [ { relname := "d", partbound := { is_default := true } },
          { relname := "nd", partbound := { lowerdatums := [.val 1], upperdatums := [.val 2] } } ] :=
  ⟨rfl, rfl, rfl, rfl⟩

/-! ## C5: lower-vs-upper tie-break asymmetry -/

/-- C5: when the first descriptor carries only a lower bound and the second
only an upper bound and the column comparison is equal, the comparator
returns 1 (the lower-bound side is treated as greater, so the upper-only
descriptor sorts first); in the mirror case the direct comparison result is
returned with no equal-case flip; consequently a START(10)-only and an
END(10)-only element sort with the END-only element first. -/
theorem lower_vs_upper_tiebreak_asymmetry :
    (∀ s1 s2 : CreateStmt,
        s1.partbound.is_default = false → s2.partbound.is_default = false →
        s1.partbound.lowerdatums ≠ [] → s1.partbound.upperdatums = [] →
        s2.partbound.lowerdatums = [] → s2.partbound.upperdatums ≠ [] →
        cmpDatumLists s1.partbound.lowerdatums s2.partbound.upperdatums = 0 →
        qsort_stmt_cmp s1 s2 = 1) ∧
    (∀ s1 s2 : CreateStmt,
        s1.partbound.is_default = false → s2.partbound.is_default = false →
        s1.partbound.lowerdatums = [] → s1.partbound.upperdatums ≠ [] →
        s2.partbound.lowerdatums ≠ [] → s2.partbound.upperdatums = [] →
        qsort_stmt_cmp s1 s2 =
          cmpDatumLists s1.partbound.upperdatums s2.partbound.lowerdatums) ∧
    qsortBy qsort_stmt_cmp
        [ { relname := "startonly", partbound := { lowerdatums := [.val 10] } },
          { relname := "endonly", partbound := { upperdatums := [.val 10] } } ]
      = [ { relname := "endonly", partbound := { upperdatums := [.val 10] } },
          { relname := "startonly", partbound := { lowerdatums := [.val 10] } } ] ∧
    qsortBy qsort_stmt_cmp
        [ { relname := "endonly", partbound := { upperdatums := [.val 10] } },
          { relname := "startonly", partbound := { lowerdatums := [.val 10] } } ]
      = [ { relname := "endonly", partbound := { upperdatums := [.val 10] } },
          { relname := "startonly", partbound := { lowerdatums := [.val 10] } } ] := by
  refine ⟨?_, ?_, rfl, rfl⟩
  · intro s1 s2 hd1 hd2 hl1 hu1 hl2 hu2 hcmp
    simp only [qsort_stmt_cmp]
    rw [if_neg (by simp [hd1, hd2]), if_neg (by simp [hl2]), if_neg (by simp [hu1]),
        if_pos ⟨hl1, hu2⟩]
    simp [hcmp]
  · intro s1 s2 hd1 hd2 hl1 hu1 hl2 hu2
    simp only [qsort_stmt_cmp]
    rw [if_neg (by simp [hd1, hd2]), if_neg (by simp [hl1]), if_neg (by simp [hu2]),
        if_neg (by simp [hl1]), if_pos ⟨hu1, hl2⟩]

/-- Witness for C5: START(10)-only vs END(10)-only, both directions of the
comparator, hypotheses discharged at the concrete descriptors. -/
theorem lower_vs_upper_tiebreak_asymmetry_witness :
    qsort_stmt_cmp
        { relname := "startonly", partbound := { lowerdatums := [.val 10] } }
        { relname := "endonly", partbound := { upperdatums := [.val 10] } } = 1 ∧
    qsort_stmt_cmp
        { relname := "endonly", partbound := { upperdatums := [.val 10] } }
        { relname := "startonly", partbound := { lowerdatums := [.val 10] } } =
      cmpDatumLists [PartDatum.val 10] [PartDatum.val 10] :=
  ⟨lower_vs_upper_tiebreak_asymmetry.1
      { relname := "startonly", partbound := { lowerdatums := [.val 10] } }
      { relname := "endonly", partbound := { upperdatums := [.val 10] } }
      rfl rfl (by decide) rfl rfl (by decide) rfl,
   lower_vs_upper_tiebreak_asymmetry.2.1
      { relname := "endonly", partbound := { upperdatums := [.val 10] } }
      { relname := "startonly", partbound := { lowerdatums := [.val 10] } }
      rfl rfl rfl (by decide) (by decide) rfl⟩

/-! ## C3: non-advancing step errors -/

/-- C3 (amended): when the computed next bound fails to advance past the
previous upper bound (and has not reached END), `nextPartBound` reports
`NonMonotonicStep` ("EVERY parameter too small") if this is the first
invocation of the iterator (`called = false`, the call that computes the
second bound), and `RangeOverflow` ("END parameter not reached before type
overflows") on every later invocation; in particular EVERY(0) on any
non-empty range fails with `NonMonotonicStep` on the iterator's first
invocation, before any pair has been produced. -/
theorem nonadvance_error_by_call_ordinal :
    (∀ (f : Int → Int) (iter : PartEveryIterator),
        iter.endReached = false →
        f iter.currEnd < iter.endVal →
        f iter.currEnd ≤ iter.currEnd →
        nextPartBound (some f) iter =
          .error (if iter.called then PartErr.RangeOverflow else PartErr.NonMonotonicStep)) ∧
    (∀ (a b : Int) (fuel : Nat), a < b → 1 ≤ fuel →
        genBoundsAux (some (plusExpr 0)) fuel (initIter a b) =
          .failed [] PartErr.NonMonotonicStep) := by
  constructor
  · intro f iter hended hlt hle
    simp only [nextPartBound]
    rw [if_neg (by simp [hended]), if_neg (by simp; omega), if_pos (by simpa using hle)]
    cases hc : iter.called <;> simp [hc]
  · intro a b fuel hab hfuel
    obtain ⟨f, rfl⟩ : ∃ f, fuel = f + 1 := ⟨fuel - 1, by omega⟩
    simp only [genBoundsAux, nextPartBound, initIter, plusExpr]
    rw [if_neg (by simp), if_neg (by simp; omega), if_pos (by simp)]
    rfl

/-- Witness for C3: a non-advancing step on an already-called iterator
(`called = true`) yields `RangeOverflow`; on a fresh iterator
(`called = false`) it yields `NonMonotonicStep`; and EVERY(0) on the range
[1,10) fails immediately. -/
theorem nonadvance_error_by_call_ordinal_witness :
    nextPartBound (some (fun x => x)) ⟨10, 0, 5, true, false⟩ =
      .error PartErr.RangeOverflow ∧
    nextPartBound (some (fun x => x)) ⟨10, 0, 5, false, false⟩ =
      .error PartErr.NonMonotonicStep ∧
    genBoundsAux (some (plusExpr 0)) 7 (initIter 1 10) =
      .failed [] PartErr.NonMonotonicStep :=
  ⟨nonadvance_error_by_call_ordinal.1 (fun x => x) ⟨10, 0, 5, true, false⟩
      rfl (by decide) (by decide),
   nonadvance_error_by_call_ordinal.1 (fun x => x) ⟨10, 0, 5, false, false⟩
      rfl (by decide) (by decide),
   nonadvance_error_by_call_ordinal.2 1 10 7 (by decide) (by decide)⟩

/-- Counterexample for C3 as stated: with EVERY(0) on the range [1,10) the
iterator fails on its FIRST invocation, with the pair list still empty — no
"second generated pair" exists; the claim's placement of the failure on the
second generated pair does not match the code. -/
theorem every_zero_fails_before_any_pair :
    genBoundsAux (some (plusExpr 0)) 10 (initIter 1 10) =
      .failed [] PartErr.NonMonotonicStep ∧
    nextPartBound (some (plusExpr 0)) (initIter 1 10) =
      .error PartErr.NonMonotonicStep :=
  ⟨rfl, rfl⟩

end PartitionGp

namespace PartitionGp

/-! ## C1: exact coverage of [a,b) by the EVERY iterator -/

/-- Adjacency of the generated pairs: each pair's upper bound equals the next
pair's lower bound. -/
def pairsChained : List (Int × Int) → Bool
  | [] => true
  | [_] => true
  | p :: q :: rest => (p.2 == q.1) && pairsChained (q :: rest)

theorem nextPartBound_clamp (b e c s : Int) (cl : Bool) (hce : b ≤ c + e) :
    nextPartBound (some (plusExpr e)) ⟨b, s, c, cl, false⟩ =
      .ok (some ⟨b, c, b, true, true⟩) := by
  simp only [nextPartBound, plusExpr]
  rw [if_neg (by simp), if_pos (by simpa using hce)]

theorem nextPartBound_step (b e c s : Int) (cl : Bool) (h1 : c + e < b)
    (h2 : c < c + e) :
    nextPartBound (some (plusExpr e)) ⟨b, s, c, cl, false⟩ =
      .ok (some ⟨b, c, c + e, true, false⟩) := by
  simp only [nextPartBound, plusExpr]
  rw [if_neg (by simp), if_neg (by simp; omega), if_neg (by omega)]

theorem nextPartBound_endReached (f : Int → Int) (b s c : Int) (cl : Bool) :
    nextPartBound (some f) ⟨b, s, c, cl, true⟩ = .ok none := by
  simp [nextPartBound]

/-- Invariant of the `while (nextPartBound(...))` loop of
`generateRangePartitions` for an advancing EVERY step: starting from any
state whose current bound is `c < b`, the loop succeeds and produces a
non-empty chained pair list from `c` to `b`, each pair's upper bound being
`min (lower + e) b` (the final pair clamped to `b`). -/
theorem genBounds_loop_spec (b e : Int) (he : 1 ≤ e) :
    ∀ (fuel : Nat) (c s : Int) (cl : Bool), c < b → (b - c).toNat < fuel →
      ∃ L, genBoundsAux (some (plusExpr e)) fuel ⟨b, s, c, cl, false⟩ = .done L ∧
        L ≠ [] ∧ (L.headD (0, 0)).1 = c ∧ (L.getLastD (0, 0)).2 = b ∧
        pairsChained L = true ∧ ∀ p ∈ L, p.1 < p.2 ∧ p.2 = min (p.1 + e) b := by
  intro fuel
  induction fuel with
  | zero => intro c s cl hc hf; omega
  | succ f ih =>
    intro c s cl hc hf
    by_cases hend : b ≤ c + e
    · obtain ⟨f2, rfl⟩ : ∃ f2, f = f2 + 1 := ⟨f - 1, by omega⟩
      refine ⟨[(c, b)], ?_, by simp, rfl, rfl, rfl, ?_⟩
      · simp only [genBoundsAux, nextPartBound_clamp b e c s cl hend,
          nextPartBound_endReached]
      · intro p hp
        simp only [List.mem_singleton] at hp
        subst hp
        exact ⟨hc, by rw [min_eq_right hend]⟩
    · have hlt : c + e < b := by omega
      obtain ⟨L, hgen, hne, hhead, hlast, hchain, hmem⟩ :=
        ih (c + e) c true (by omega) (by omega)
      refine ⟨(c, c + e) :: L, ?_, by simp, by simp, ?_, ?_, ?_⟩
      · simp only [genBoundsAux, nextPartBound_step b e c s cl hlt (by omega), hgen]
      · have hl : ((c, c + e) :: L).getLastD (0, 0) = L.getLastD (0, 0) := by
          cases L with
          | nil => exact absurd rfl hne
          | cons q rest => exact getLastD_cons_cons _ _ _ _
        rw [hl]
        exact hlast
      · cases L with
        | nil => exact absurd rfl hne
        | cons q rest =>
          have hq : q.1 = c + e := by simpa using hhead
          simp [pairsChained, hq, hchain]
      · intro p hp
        rcases List.mem_cons.mp hp with hp | hp
        · subst hp
          exact ⟨by omega, by rw [min_eq_left (le_of_lt hlt)]⟩
        · exact hmem p hp

/-- C1: for a RANGE element START=a END=b EVERY=e with an advancing step
(`1 ≤ e` on the integer key, which then always reaches `b`), the bound
iterator driven by the `generateRangePartitions` loop succeeds and produces
pairs `(a, a+e), (a+e, a+2e), ...` — each pair's upper bound is
`min (lower + e) b`, i.e. clamped to `b` exactly when the computed next
bound compares `>= b` — whose half-open intervals exactly cover `[a, b)`:
the first lower is `a`, the last upper is `b`, every pair is non-empty, and
each pair's upper equals the next pair's lower (no gaps, no overlaps). -/
theorem range_every_exact_cover (a b e : Int) (fuel : Nat)
    (hab : a < b) (he : 1 ≤ e) (hfuel : (b - a).toNat < fuel) :
    ∃ L, genBoundsAux (some (plusExpr e)) fuel (initIter a b) = .done L ∧
      L ≠ [] ∧ (L.headD (0, 0)).1 = a ∧ (L.getLastD (0, 0)).2 = b ∧
      pairsChained L = true ∧ ∀ p ∈ L, p.1 < p.2 ∧ p.2 = min (p.1 + e) b :=
  genBounds_loop_spec b e he fuel a 0 false hab hfuel

/-- Witness for C1: START(1) END(10) EVERY(3), fuel 10. -/
theorem range_every_exact_cover_witness :
    (1 : Int) < 10 ∧ (1 : Int) ≤ 3 ∧ ((10 : Int) - 1).toNat < 10 ∧
    (∃ L, genBoundsAux (some (plusExpr 3)) 10 (initIter 1 10) = .done L ∧
      L ≠ [] ∧ (L.headD (0, 0)).1 = 1 ∧ (L.getLastD (0, 0)).2 = 10 ∧
      pairsChained L = true ∧ ∀ p ∈ L, p.1 < p.2 ∧ p.2 = min (p.1 + 3) 10) :=
  ⟨by decide, by decide, by decide,
   range_every_exact_cover 1 10 3 10 (by decide) (by decide) (by decide)⟩

end PartitionGp

namespace PartitionGp

/-! ## C4: implicit bound resolution -/

theorem fillStmt_lower (prev : Option CreateStmt) (stmt : CreateStmt)
    (rest : List CreateStmt) :
    (fillStmt prev stmt rest).partbound.lowerdatums =
      if stmt.partbound.lowerdatums = [] then
        (match prev with
         | some p => p.partbound.upperdatums
         | none => [PartDatum.minvalue])
      else stmt.partbound.lowerdatums := by
  by_cases h1 : stmt.partbound.lowerdatums = [] <;>
    by_cases h2 : stmt.partbound.upperdatums = [] <;>
      simp [fillStmt, h1, h2]

theorem fillStmt_upper (prev : Option CreateStmt) (stmt : CreateStmt)
    (rest : List CreateStmt) :
    (fillStmt prev stmt rest).partbound.upperdatums =
      if stmt.partbound.upperdatums = [] then
        (match rest with
         | next :: _ => next.partbound.lowerdatums
         | [] => [PartDatum.maxvalue])
      else stmt.partbound.upperdatums := by
  by_cases h1 : stmt.partbound.lowerdatums = [] <;>
    by_cases h2 : stmt.partbound.upperdatums = [] <;>
      simp [fillStmt, h1, h2]

theorem fillPass_cons (prev : Option CreateStmt) (stmt : CreateStmt)
    (rest : List CreateStmt) :
    fillPass prev (stmt :: rest) =
      fillStmt prev stmt rest :: fillPass (some (fillStmt prev stmt rest)) rest := rfl

theorem fillPass_ne_nil (prev : Option CreateStmt) (stmt : CreateStmt)
    (rest : List CreateStmt) : fillPass prev (stmt :: rest) ≠ [] := by
  rw [fillPass_cons]
  simp

/-- The one-pass fill walk makes any adjacent pair whose facing bounds had a
missing side agree: upper[i] = lower[i+1] afterwards. -/
theorem fillPass_adjacent (ls : List CreateStmt) :
    ∀ (prev : Option CreateStmt) (i : Nat),
      i + 1 < ls.length →
      ((ls.getD i dummyStmt).partbound.upperdatums = [] ∨
       (ls.getD (i + 1) dummyStmt).partbound.lowerdatums = []) →
      ((fillPass prev ls).getD i dummyStmt).partbound.upperdatums =
        ((fillPass prev ls).getD (i + 1) dummyStmt).partbound.lowerdatums := by
  induction ls with
  | nil => intro prev i hlen; simp at hlen
  | cons s tail ih =>
    intro prev i hlen hmiss
    cases tail with
    | nil => simp at hlen
    | cons r rest =>
      cases i with
      | zero =>
        rw [fillPass_cons, fillPass_cons]
        simp only [List.getD_cons_zero, List.getD_cons_succ]
        simp only [List.getD_cons_zero, List.getD_cons_succ] at hmiss
        rw [fillStmt_upper, fillStmt_lower]
        by_cases h1 : s.partbound.upperdatums = [] <;>
          by_cases h2 : r.partbound.lowerdatums = []
        · simp only [if_pos h1, if_pos h2]
          rw [fillStmt_upper]
          simp [h1, h2]
        · simp only [if_pos h1, if_neg h2]
        · simp only [if_neg h1, if_pos h2]
          rw [fillStmt_upper]
          simp [h1]
        · rcases hmiss with hmiss | hmiss
          · exact absurd hmiss h1
          · exact absurd hmiss h2
      | succ j =>
        rw [fillPass_cons]
        simp only [List.getD_cons_succ]
        simp only [List.getD_cons_succ] at hmiss
        exact ih (some (fillStmt prev s (r :: rest))) j (by simpa using hlen) hmiss

/-- A first element with no lower bound receives the `minvalue` sentinel. -/
theorem fillPass_head_min (s : CreateStmt) (rest : List CreateStmt)
    (h : s.partbound.lowerdatums = []) :
    ((fillPass none (s :: rest)).headD dummyStmt).partbound.lowerdatums =
      [PartDatum.minvalue] := by
  rw [fillPass_cons]
  simp only [List.headD_cons]
  rw [fillStmt_lower]
  simp [h]

/-- A last element with no upper bound receives the `maxvalue` sentinel. -/
theorem fillPass_last_max (ls : List CreateStmt) :
    ∀ (prev : Option CreateStmt) (d : CreateStmt),
      ls ≠ [] → (ls.getLastD dummyStmt).partbound.upperdatums = [] →
      ((fillPass prev ls).getLastD d).partbound.upperdatums =
        [PartDatum.maxvalue] := by
  induction ls with
  | nil => intro prev d h; exact absurd rfl h
  | cons s tail ih =>
    intro prev d hne hmiss
    cases tail with
    | nil =>
      rw [fillPass_cons]
      show (fillStmt prev s []).partbound.upperdatums = [PartDatum.maxvalue]
      rw [fillStmt_upper]
      have hm : s.partbound.upperdatums = [] := hmiss
      simp [hm]
    | cons r rest =>
      rw [fillPass_cons]
      have h1 : (fillStmt prev s (r :: rest) :: fillPass (some (fillStmt prev s (r :: rest))) (r :: rest)).getLastD d
          = (fillPass (some (fillStmt prev s (r :: rest))) (r :: rest)).getLastD d := by
        rw [fillPass_cons]
        exact getLastD_cons_cons _ _ _ _
      rw [h1]
      refine ih (some (fillStmt prev s (r :: rest))) d (by simp) ?_
      rw [← getLastD_cons_cons s r dummyStmt rest]
      exact hmiss

/-- C4 (amended): after `deduceImplicitRangeBounds` sorts and walks the list
once left to right, every adjacent pair of descriptors whose facing bounds
had a missing side (upper of the left or lower of the right absent in the
sorted input) satisfies upper[i] = lower[i+1]; a first descriptor with a
missing lower bound receives the `minvalue` sentinel and a last descriptor
with a missing upper bound the `maxvalue` sentinel.  (For adjacent pairs
whose facing bounds were BOTH declared explicitly, nothing is filled and
the bounds may differ — see the counterexample.) -/
theorem deduce_fills_missing_adjacent_bounds (origstmts : List CreateStmt) :
    (∀ i : Nat, i + 1 < (qsortBy qsort_stmt_cmp origstmts).length →
      (((qsortBy qsort_stmt_cmp origstmts).getD i dummyStmt).partbound.upperdatums = [] ∨
       ((qsortBy qsort_stmt_cmp origstmts).getD (i + 1) dummyStmt).partbound.lowerdatums = []) →
      ((deduceImplicitRangeBounds origstmts).getD i dummyStmt).partbound.upperdatums =
        ((deduceImplicitRangeBounds origstmts).getD (i + 1) dummyStmt).partbound.lowerdatums) ∧
    (∀ s rest, qsortBy qsort_stmt_cmp origstmts = s :: rest →
      s.partbound.lowerdatums = [] →
      ((deduceImplicitRangeBounds origstmts).headD dummyStmt).partbound.lowerdatums =
        [PartDatum.minvalue]) ∧
    (qsortBy qsort_stmt_cmp origstmts ≠ [] →
      ((qsortBy qsort_stmt_cmp origstmts).getLastD dummyStmt).partbound.upperdatums = [] →
      ((deduceImplicitRangeBounds origstmts).getLastD dummyStmt).partbound.upperdatums =
        [PartDatum.maxvalue]) := by
  refine ⟨?_, ?_, ?_⟩
  · intro i hlen hmiss
    exact fillPass_adjacent (qsortBy qsort_stmt_cmp origstmts) none i hlen hmiss
  · intro s rest hs hlow
    show ((fillPass none (qsortBy qsort_stmt_cmp origstmts)).headD dummyStmt).partbound.lowerdatums = _
    rw [hs]
    exact fillPass_head_min s rest hlow
  · intro hne hup
    exact fillPass_last_max (qsortBy qsort_stmt_cmp origstmts) none dummyStmt hne hup

/-- Witness for C4: three applications of the theorem.  (1) adjacency at
`[START(1)-only, END(5)-only]` (sorted in that order), whose facing bounds
are both missing; (2) the minvalue sentinel on a single END(5)-only
descriptor; (3) the maxvalue sentinel on a single START(1)-only
descriptor. -/
theorem deduce_fills_missing_adjacent_bounds_witness :
    ((deduceImplicitRangeBounds
        [ { relname := "A", partbound := { lowerdatums := [.val 1] } },
          { relname := "B", partbound := { upperdatums := [.val 5] } } ]).getD 0
        dummyStmt).partbound.upperdatums =
      ((deduceImplicitRangeBounds
        [ { relname := "A", partbound := { lowerdatums := [.val 1] } },
          { relname := "B", partbound := { upperdatums := [.val 5] } } ]).getD 1
        dummyStmt).partbound.lowerdatums ∧
    ((deduceImplicitRangeBounds
        [ { relname := "U", partbound := { upperdatums := [.val 5] } } ]).headD
        dummyStmt).partbound.lowerdatums = [PartDatum.minvalue] ∧
    ((deduceImplicitRangeBounds
        [ { relname := "L", partbound := { lowerdatums := [.val 1] } } ]).getLastD
        dummyStmt).partbound.upperdatums = [PartDatum.maxvalue] :=
  ⟨(deduce_fills_missing_adjacent_bounds
      [ { relname := "A", partbound := { lowerdatums := [.val 1] } },
        { relname := "B", partbound := { upperdatums := [.val 5] } } ]).1 0
      (by decide) (Or.inl (by decide)),
   (deduce_fills_missing_adjacent_bounds
      [ { relname := "U", partbound := { upperdatums := [.val 5] } } ]).2.1
      { relname := "U", partbound := { upperdatums := [.val 5] } } [] rfl rfl,
   (deduce_fills_missing_adjacent_bounds
      [ { relname := "L", partbound := { lowerdatums := [.val 1] } } ]).2.2
      (by decide) rfl⟩

/-- Counterexample for C4 as stated: two adjacent RANGE descriptors with
fully explicit bounds `[1,5)` and `[7,9)` pass through
`deduceImplicitRangeBounds` unchanged, and their adjacent bounds differ
(upper[0] = 5 ≠ 7 = lower[1]) — the universal `upper[i] == lower[i+1]`
of the claim fails when neighbors were declared with a gap. -/
theorem deduce_gap_counterexample :
    deduceImplicitRangeBounds
        [ { relname := "p1",
            partbound := { lowerdatums := [.val 1], upperdatums := [.val 5] } },
          { relname := "p2",
            partbound := { lowerdatums := [.val 7], upperdatums := [.val 9] } } ]
      = [ { relname := "p1",
            partbound := { lowerdatums := [.val 1], upperdatums := [.val 5] } },
          { relname := "p2",
            partbound := { lowerdatums := [.val 7], upperdatums := [.val 9] } } ] ∧
    ¬ (((deduceImplicitRangeBounds
          [ { relname := "p1",
              partbound := { lowerdatums := [.val 1], upperdatums := [.val 5] } },
            { relname := "p2",
              partbound := { lowerdatums := [.val 7], upperdatums := [.val 9] } } ]).getD 0
          dummyStmt).partbound.upperdatums =
        ((deduceImplicitRangeBounds
          [ { relname := "p1",
              partbound := { lowerdatums := [.val 1], upperdatums := [.val 5] } },
            { relname := "p2",
              partbound := { lowerdatums := [.val 7], upperdatums := [.val 9] } } ]).getD 1
          dummyStmt).partbound.lowerdatums) :=
  ⟨rfl, by decide⟩

end PartitionGp

namespace PartitionGp

/-! ## C7: encoding merge rules -/

theorem split_no_default (l : List ColumnReferenceStorageDirective) :
    ∀ (acc : List ColumnReferenceStorageDirective) (d : ColumnReferenceStorageDirective),
      l.filter (fun c => c.deflt) = [] →
      split_encoding_clauses l acc (some d) = .ok (acc ++ l, some d) := by
  induction l with
  | nil => intro acc d h; simp [split_encoding_clauses]
  | cons c rest ih =>
    intro acc d h
    by_cases hc : c.deflt
    · simp [List.filter_cons, hc] at h
    · simp only [split_encoding_clauses, hc, if_neg, Bool.false_eq_true, reduceIte]
      rw [ih (acc ++ [c]) d (by simpa [List.filter_cons, hc] using h)]
      simp

theorem split_ok (l : List ColumnReferenceStorageDirective) :
    ∀ acc : List ColumnReferenceStorageDirective,
      (l.filter (fun c => c.deflt)).length ≤ 1 →
      split_encoding_clauses l acc none =
        .ok (acc ++ l.filter (fun c => !c.deflt), l.find? (fun c => c.deflt)) := by
  induction l with
  | nil => intro acc h; simp [split_encoding_clauses]
  | cons c rest ih =>
    intro acc h
    by_cases hc : c.deflt
    · have hrest : rest.filter (fun c => c.deflt) = [] := by
        simp only [List.filter_cons, hc, if_pos, List.length_cons] at h
        exact List.eq_nil_of_length_eq_zero (by omega)
      have hall : rest.filter (fun c => !c.deflt) = rest := by
        rw [List.filter_eq_self]
        intro a ha
        have := List.filter_eq_nil_iff.mp hrest a ha
        simpa using this
      simp only [split_encoding_clauses, hc, reduceIte]
      rw [split_no_default rest acc c hrest]
      simp [List.filter_cons, hc, List.find?_cons_of_pos _ hc, hall]
    · simp only [split_encoding_clauses, hc, Bool.false_eq_true, reduceIte]
      rw [ih (acc ++ [c]) (by simpa [List.filter_cons, hc] using h)]
      have hf : (c :: rest).filter (fun c => !c.deflt) = c :: rest.filter (fun c => !c.deflt) := by
        simp [List.filter_cons, hc]
      rw [hf, List.find?_cons_of_neg _ (by simpa using hc)]
      simp

theorem foldl_skip_mentioned (p : ColumnReferenceStorageDirective → Bool) :
    ∀ (l init : List ColumnReferenceStorageDirective),
      List.foldl (fun acc pd => if p pd then acc else acc ++ [pd]) init l
        = init ++ l.filter (fun pd => !p pd) := by
  intro l
  induction l with
  | nil => intro init; simp
  | cons c rest ih =>
    intro init
    by_cases hc : p c <;> simp [List.foldl_cons, hc, ih, List.filter_cons]

/-- C7 (amended): for every combination of element-level and config-level
directive lists (with at most one default per level, as the code enforces):
when the config list is empty the element's list is returned unchanged;
when the ELEMENT's list is empty the config list is adopted wholesale in
its original order (so a config default need not end up last — the
deviation from the claim as stated); otherwise the result is the element's
directives, followed by exactly those config column-specific directives
whose column is not mentioned among the element's column-specific
directives (element-level specificity is never overridden), followed by the
config default clause iff the element has no default clause of its own
(an element default stops the merge there). -/
theorem merge_partition_encoding_rules :
    (∀ elem_colencs : List ColumnReferenceStorageDirective,
        merge_partition_encoding elem_colencs [] = .ok elem_colencs) ∧
    (∀ penc : List ColumnReferenceStorageDirective, penc ≠ [] →
        merge_partition_encoding [] penc = .ok penc) ∧
    (∀ elem_colencs penc : List ColumnReferenceStorageDirective,
        elem_colencs ≠ [] → penc ≠ [] →
        (elem_colencs.filter (fun c => c.deflt)).length ≤ 1 →
        (penc.filter (fun c => c.deflt)).length ≤ 1 →
        merge_partition_encoding elem_colencs penc = .ok (
          elem_colencs
          ++ (penc.filter (fun c => !c.deflt)).filter (fun pd =>
                !((elem_colencs.filter (fun c => !c.deflt)).any
                    (fun ed => ed.column == pd.column)))
          ++ (if (elem_colencs.find? (fun c => c.deflt)).isSome then []
              else
                match penc.find? (fun c => c.deflt) with
                | some pd => [pd]
                | none => []))) := by
  refine ⟨?_, ?_, ?_⟩
  · intro elem_colencs; simp [merge_partition_encoding]
  · intro penc hpenc; simp [merge_partition_encoding, hpenc]
  · intro elem_colencs penc helem hpenc h1 h2
    simp only [merge_partition_encoding, hpenc, helem, reduceIte]
    rw [split_ok elem_colencs [] h1, split_ok penc [] h2]
    simp only [List.nil_append]
    rw [foldl_skip_mentioned
          (fun pd => (elem_colencs.filter (fun c => !c.deflt)).any
              (fun ed => ed.column == pd.column))
          (penc.filter (fun c => !c.deflt)) elem_colencs]
    cases helemdef : elem_colencs.find? (fun c => c.deflt) <;>
      cases hpartdef : penc.find? (fun c => c.deflt) <;>
        simp [helemdef, hpartdef]

/-- Witness for C7: the three cases at concrete directive lists —
config empty; element empty with config `[COLUMN j, DEFAULT]`; and the
general case element `[COLUMN i]` against config
`[COLUMN i, COLUMN j, DEFAULT]` (the config `COLUMN i` is dropped, the
config `COLUMN j` and the config default are appended). -/
theorem merge_partition_encoding_rules_witness :
    merge_partition_encoding
        [ { column := "i", deflt := false, encoding := 1 } ] [] =
      .ok [ { column := "i", deflt := false, encoding := 1 } ] ∧
    merge_partition_encoding []
        [ { column := "j", deflt := false, encoding := 3 },
          { column := "", deflt := true, encoding := 4 } ] =
      .ok [ { column := "j", deflt := false, encoding := 3 },
            { column := "", deflt := true, encoding := 4 } ] ∧
    merge_partition_encoding
        [ { column := "i", deflt := false, encoding := 1 } ]
        [ { column := "i", deflt := false, encoding := 2 },
          { column := "j", deflt := false, encoding := 3 },
          { column := "", deflt := true, encoding := 4 } ] =
      .ok [ { column := "i", deflt := false, encoding := 1 },
            { column := "j", deflt := false, encoding := 3 },
            { column := "", deflt := true, encoding := 4 } ] :=
  ⟨merge_partition_encoding_rules.1 [ { column := "i", deflt := false, encoding := 1 } ],
   merge_partition_encoding_rules.2.1
     [ { column := "j", deflt := false, encoding := 3 },
       { column := "", deflt := true, encoding := 4 } ] (by decide),
   (merge_partition_encoding_rules.2.2
     [ { column := "i", deflt := false, encoding := 1 } ]
     [ { column := "i", deflt := false, encoding := 2 },
       { column := "j", deflt := false, encoding := 3 },
       { column := "", deflt := true, encoding := 4 } ]
     (by decide) (by decide) (by decide) (by decide)).trans rfl⟩

/-- Counterexample for C7 as stated: with an empty element list and the
config list `[DEFAULT, COLUMN j]`, `merge_partition_encoding` returns the
config list unchanged, so the config-level default directive is present but
NOT last — the claim's "a config-level default directive, if present, is
appended last" fails for this combination. -/
theorem config_default_not_last_counterexample :
    merge_partition_encoding []
        [ { column := "", deflt := true, encoding := 4 },
          { column := "j", deflt := false, encoding := 3 } ] =
      .ok [ { column := "", deflt := true, encoding := 4 },
            { column := "j", deflt := false, encoding := 3 } ] ∧
    ({ column := "", deflt := true, encoding := 4 } : ColumnReferenceStorageDirective).deflt
      = true ∧
    (([ { column := "", deflt := true, encoding := 4 },
        { column := "j", deflt := false, encoding := 3 } ] :
        List ColumnReferenceStorageDirective).getLastD
        { column := "", deflt := true, encoding := 4 }).deflt = false :=
  ⟨rfl, rfl, rfl⟩

end PartitionGp

namespace PartitionGp

/-! ## C8: inclusive END canonicalization -/

theorem makePartitionCreateStmt_congr (pn : String) (e1 e2 : GpPartDefElem)
    (ho : e1.options = e2.options) (ha : e1.accessMethod = e2.accessMethod)
    (hc : e1.colencs = e2.colencs) :
    ∀ (nm : Option String) (bs : PartBound) (pc : PartnameComp),
      makePartitionCreateStmt pn nm bs e1 pc = makePartitionCreateStmt pn nm bs e2 pc := by
  intro nm bs pc
  cases ht : pc.tablename <;> simp [makePartitionCreateStmt, ht, ho, ha, hc]

theorem buildRangeStmts_congr (pn : String) (e1 e2 : GpPartDefElem)
    (hp : e1.partName = e2.partName) (ho : e1.options = e2.options)
    (ha : e1.accessMethod = e2.accessMethod) (hc : e1.colencs = e2.colencs)
    (hs he hev : Bool) :
    ∀ (pairs : List (Int × Int)) (pc : PartnameComp) (i : Nat),
      buildRangeStmts pn e1 hs he hev pairs pc i =
        buildRangeStmts pn e2 hs he hev pairs pc i := by
  intro pairs
  induction pairs with
  | nil => intro pc i; rfl
  | cons p rest ih =>
    intro pc i
    cases p with
    | mk lo hi =>
      simp only [buildRangeStmts, hp,
        makePartitionCreateStmt_congr pn e1 e2 ho ha hc, ih]

/-- C8: for a RANGE element whose END is declared inclusive, the end value
is replaced by its successor (the same plus-expression machinery evaluated
with the literal integer 1 as the step, `canonicalizeRangeEnd`) before the
comparator/iterator logic runs: expanding the element is identical to
expanding the same element declared with the exclusive END `b + 1`; and an
already-exclusive END is left unchanged. -/
theorem inclusive_end_canonicalized (pn : String) (elem : GpPartDefElem)
    (pc : PartnameComp) (fuel : Nat) (s ev : Option (List Int)) (b : Int)
    (hbs : elem.boundSpec = some (.rangeSpec s (some [b]) true ev)) :
    generateRangePartitions pn elem pc fuel =
      generateRangePartitions pn
        { elem with boundSpec := some (.rangeSpec s (some [b + 1]) false ev) }
        pc fuel ∧
    ∀ x : Int, canonicalizeRangeEnd x false = x := by
  refine ⟨?_, fun x => rfl⟩
  have hbs2 : ({ elem with
      boundSpec := some (.rangeSpec s (some [b + 1]) false ev) } : GpPartDefElem).boundSpec
      = some (.rangeSpec s (some [b + 1]) false ev) := rfl
  simp only [generateRangePartitions, hbs, hbs2]
  have hpe : parseBoundVals (some [b]) = .ok (some b) := by simp [parseBoundVals]
  have hpe2 : parseBoundVals (some [b + 1]) = .ok (some (b + 1)) := by
    simp [parseBoundVals]
  rw [hpe, hpe2]
  cases hps : parseBoundVals s with
  | error e => rfl
  | ok start =>
    have hc1 : canonicalizeRangeEnd b true = b + 1 := rfl
    have hc2 : canonicalizeRangeEnd (b + 1) false = b + 1 := rfl
    simp only [hc1, hc2]
    cases hev2 : (if pc.tablename = none then parseBoundVals ev else .ok none) with
    | error e => rfl
    | ok every =>
      simp only
      by_cases hcond : every.isSome ∧ (start = none ∨ (some b : Option Int) = none)
      · rcases hcond with ⟨h1, h2⟩
        rcases h2 with h2 | h2
        · rw [if_pos ⟨h1, Or.inl h2⟩, if_pos ⟨h1, Or.inl h2⟩]
        · exact absurd h2 (by simp)
      · have hcond2 : ¬ (every.isSome ∧ (start = none ∨ (some (b + 1) : Option Int) = none)) := by
          intro ⟨h1, h2⟩
          rcases h2 with h2 | h2
          · exact hcond ⟨h1, Or.inl h2⟩
          · simp at h2
        rw [if_neg hcond, if_neg hcond2]
        cases hgb : genBoundsAux (every.map plusExpr) fuel (initIter (start.getD 0) (b + 1)) with
        | done pairs =>
          simp only
          rw [buildRangeStmts_congr pn elem
                { elem with boundSpec := some (.rangeSpec s (some [b + 1]) false ev) }
                rfl rfl rfl rfl start.isSome (some b).isSome every.isSome pairs pc 0]
          rfl
        | failed ps e => rfl
        | outOfFuel ps => rfl

/-- Witness for C8: START(1) END(10) INCLUSIVE EVERY(3) expands exactly like
START(1) END(11) EXCLUSIVE EVERY(3). -/
theorem inclusive_end_canonicalized_witness :
    generateRangePartitions "t"
        { partName := some "a",
          boundSpec := some (.rangeSpec (some [1]) (some [10]) true (some [3])) }
        { tablename := none, level := 1, partnum := 0 } 12 =
      generateRangePartitions "t"
        { partName := some "a",
          boundSpec := some (.rangeSpec (some [1]) (some [10 + 1]) false (some [3])) }
        { tablename := none, level := 1, partnum := 0 } 12 ∧
    ∀ x : Int, canonicalizeRangeEnd x false = x :=
  inclusive_end_canonicalized "t"
    { partName := some "a",
      boundSpec := some (.rangeSpec (some [1]) (some [10]) true (some [3])) }
    { tablename := none, level := 1, partnum := 0 } 12 (some [1]) (some [3]) 10 rfl

end PartitionGp

namespace PartitionGp

/-! ## C9, C10: per-element resolution -/

theorem resolveElem_spec (po : List (String × String)) (pam : Option String)
    (penc : List ColumnReferenceStorageDirective) (elem : GpPartDefElem)
    (tbl : Option String) (elem2 : GpPartDefElem)
    (h : resolveElem po pam penc elem = .ok (tbl, elem2)) :
    elem2.partName = elem.partName ∧
    elem2.isDefault = elem.isDefault ∧
    elem2.boundSpec = elem.boundSpec ∧
    elem2.accessMethod = resolvedAccessMethod elem.accessMethod pam ∧
    tbl = (extract_tablename_from_options elem.options).1 ∧
    (resolvedAccessMethod elem.accessMethod pam ≠ some "aoco" →
      elem2.colencs = elem.colencs) ∧
    (resolvedAccessMethod elem.accessMethod pam = some "aoco" →
      merge_partition_encoding elem.colencs penc = .ok elem2.colencs) := by
  simp only [resolveElem] at h
  by_cases ham : resolvedAccessMethod elem.accessMethod pam = some "aoco"
  · rw [if_pos ham] at h
    cases hm : merge_partition_encoding elem.colencs penc with
    | error e => rw [hm] at h; cases h
    | ok c =>
      rw [hm] at h
      simp only [Except.ok.injEq, Prod.mk.injEq] at h
      obtain ⟨ht, he⟩ := h
      subst ht
      subst he
      exact ⟨rfl, rfl, rfl, rfl, rfl, fun hne => absurd ham hne, fun _ => rfl⟩
  · rw [if_neg ham] at h
    simp only [Except.ok.injEq, Prod.mk.injEq] at h
    obtain ⟨ht, he⟩ := h
    subst ht
    subst he
    exact ⟨rfl, rfl, rfl, rfl, rfl, fun _ => rfl, fun hx => absurd hx ham⟩

/-- C9: when an element's options carry a legacy "tablename" override, the
EVERY clause is ignored even when present: exactly one descriptor covering
the whole declared START/END range (END canonicalized) is generated, it is
named by the override instead of a synthesized name, and the per-level
naming counter is not consumed. -/
theorem tablename_override_ignores_every (pn : String)
    (po : List (String × String)) (pam : Option String)
    (penc : List ColumnReferenceStorageDirective)
    (elem elem2 : GpPartDefElem) (pc : PartnameComp) (fuel : Nat) (t : String)
    (a b : Int) (incl : Bool) (ev : List Int)
    (hres : resolveElem po pam penc elem = .ok (some t, elem2))
    (hdef : elem.isDefault = false)
    (hbs : elem.boundSpec = some (.rangeSpec (some [a]) (some [b]) incl (some ev)))
    (hfuel : 2 ≤ fuel) :
    processPartDefElem pn .range po pam penc elem pc fuel =
      .ok ([ { relname := t,
               partbound := { is_default := false,
                              lowerdatums := [PartDatum.val a],
                              upperdatums := [PartDatum.val (canonicalizeRangeEnd b incl)],
                              listdatums := [] },
               options := elem2.options,
               accessMethod := elem2.accessMethod,
               attr_encodings := elem2.colencs } ],
            { pc with tablename := some t }) := by
  obtain ⟨hname, hdef2, hbs2, -, -, -, -⟩ :=
    resolveElem_spec po pam penc elem (some t) elem2 hres
  obtain ⟨f, rfl⟩ : ∃ f, fuel = f + 2 := ⟨fuel - 2, by omega⟩
  have hd : elem2.isDefault = false := hdef2.trans hdef
  have hb : elem2.boundSpec = some (.rangeSpec (some [a]) (some [b]) incl (some ev)) :=
    hbs2.trans hbs
  unfold processPartDefElem
  rw [hres]
  simp only [hd, Bool.false_eq_true, reduceIte]
  unfold generateRangePartitions
  rw [hb]
  simp only [parseBoundVals, List.length_singleton, reduceIte, List.headD_cons]
  simp only [PartnameComp.tablename, reduceCtorEq, reduceIte, Option.isSome_none,
    Bool.false_eq_true, false_and, Option.getD_some, Option.map_none]
  simp only [genBoundsAux, nextPartBound, initIter, Bool.not_false, Bool.not_true,
    Bool.false_eq_true, reduceIte]
  simp only [buildRangeStmts, Option.isSome_some, Option.isSome_none,
    Bool.false_eq_true, false_and, reduceIte, makePartitionCreateStmt]
  rfl

/-- Witness for C9: a concrete element with `WITH (tablename='foo')` and
START(1) END(10) EVERY(2) yields the single descriptor named "foo" covering
[1, 10), with the naming counter untouched. -/
theorem tablename_override_ignores_every_witness :
    processPartDefElem "t" .range [] none []
        { partName := some "a", options := [("tablename", "foo")],
          boundSpec := some (.rangeSpec (some [1]) (some [10]) false (some [2])) }
        { tablename := none, level := 1, partnum := 0 } 5 =
      .ok ([ { relname := "foo",
               partbound := { is_default := false,
                              lowerdatums := [PartDatum.val 1],
                              upperdatums := [PartDatum.val (canonicalizeRangeEnd 10 false)],
                              listdatums := [] },
               options := [],
               accessMethod := none,
               attr_encodings := [] } ],
            { tablename := some "foo", level := 1, partnum := 0 }) :=
  tablename_override_ignores_every "t" [] none []
    { partName := some "a", options := [("tablename", "foo")],
      boundSpec := some (.rangeSpec (some [1]) (some [10]) false (some [2])) }
    { partName := some "a", options := [],
      boundSpec := some (.rangeSpec (some [1]) (some [10]) false (some [2])) }
    { tablename := none, level := 1, partnum := 0 } 5 "foo" 1 10 false [2]
    rfl rfl rfl (by decide)

/-- C10: the three-level column-encoding merge is performed iff the
element's resolved access method (its own, or the parent's when it has
none) is exactly "aoco"; for any other access method the element's own
encoding list is passed through unchanged, and `makePartitionCreateStmt`
copies that resolved list verbatim into the created descriptor's
`attr_encodings`. -/
theorem aoco_gates_encoding_merge (po : List (String × String))
    (pam : Option String) (penc : List ColumnReferenceStorageDirective)
    (elem : GpPartDefElem) (tbl : Option String) (elem2 : GpPartDefElem)
    (h : resolveElem po pam penc elem = .ok (tbl, elem2)) :
    (resolvedAccessMethod elem.accessMethod pam ≠ some "aoco" →
        elem2.colencs = elem.colencs) ∧
    (resolvedAccessMethod elem.accessMethod pam = some "aoco" →
        merge_partition_encoding elem.colencs penc = .ok elem2.colencs) ∧
    (∀ (pn : String) (nm : Option String) (bs : PartBound) (pc : PartnameComp),
        ((makePartitionCreateStmt pn nm bs elem2 pc).1).attr_encodings =
          elem2.colencs) := by
  obtain ⟨-, -, -, -, -, hpass, hmerge⟩ :=
    resolveElem_spec po pam penc elem tbl elem2 h
  refine ⟨hpass, hmerge, ?_⟩
  intro pn nm bs pc
  cases ht : pc.tablename <;> simp [makePartitionCreateStmt, ht]

/-- Witness for C10: a "heap" element keeps its own encodings (no merge),
and a second application at an "aoco" element shows the merged list. -/
theorem aoco_gates_encoding_merge_witness :
    (({ partName := some "a", accessMethod := some "heap",
        colencs := [ { column := "i", deflt := false, encoding := 1 } ] } :
        GpPartDefElem).colencs =
      [ { column := "i", deflt := false, encoding := 1 } ]) ∧
    merge_partition_encoding
        [ { column := "i", deflt := false, encoding := 1 } ]
        [ { column := "j", deflt := false, encoding := 3 } ] =
      .ok [ { column := "i", deflt := false, encoding := 1 },
            { column := "j", deflt := false, encoding := 3 } ] :=
  ⟨(aoco_gates_encoding_merge [] none
      [ { column := "j", deflt := false, encoding := 3 } ]
      { partName := some "a", accessMethod := some "heap",
        colencs := [ { column := "i", deflt := false, encoding := 1 } ] }
      none
      { partName := some "a", accessMethod := some "heap",
        colencs := [ { column := "i", deflt := false, encoding := 1 } ] }
      rfl).1 (by decide),
   (aoco_gates_encoding_merge [] none
      [ { column := "j", deflt := false, encoding := 3 } ]
      { partName := some "a", accessMethod := some "aoco",
        colencs := [ { column := "i", deflt := false, encoding := 1 } ] }
      none
      { partName := some "a", accessMethod := some "aoco",
        colencs := [ { column := "i", deflt := false, encoding := 1 },
                     { column := "j", deflt := false, encoding := 3 } ] }
      rfl).2.1 rfl⟩

end PartitionGp

namespace PartitionGp

/-! ## C6: order of the returned descriptor list -/

/-- C6 (amended): for the LIST strategy the list returned by
`generatePartitions` is the loop's natural DEFAULT-first processing order
(no reordering); for the RANGE strategy the returned list is the output of
`deduceImplicitRangeBounds` — i.e. the boundary-sorted order — applied to
that natural-order list, so for RANGE the sort is NOT internal-only. -/
theorem returned_order_by_strategy (pn : String) (level : Nat)
    (pdes : List PartDefOrEnc) (po : List (String × String)) (pam : Option String)
    (pattenc : List ColumnReferenceStorageDirective) (fuel : Nat) :
    generatePartitions pn .list level pdes po pam pattenc fuel =
      naturalOrderPartitionsSpec pn .list level pdes po pam pattenc fuel ∧
    generatePartitions pn .range level pdes po pam pattenc fuel =
      Except.map deduceImplicitRangeBounds
        (naturalOrderPartitionsSpec pn .range level pdes po pam pattenc fuel) := by
  constructor
  · unfold generatePartitions naturalOrderPartitionsSpec
    cases merge_partition_encoding (collectEncs pdes) pattenc with
    | error e => rfl
    | ok penc_cls =>
      cases moveDefaultFirst (collectElems pdes) [] false with
      | error e => rfl
      | ok elems =>
        cases generatePartitionsLoop pn .list (extract_tablename_from_options po).2
            pam penc_cls fuel elems { tablename := none, level := level, partnum := 0 } with
        | error e => rfl
        | ok res => rfl
  · unfold generatePartitions naturalOrderPartitionsSpec
    cases merge_partition_encoding (collectEncs pdes) pattenc with
    | error e => rfl
    | ok penc_cls =>
      cases moveDefaultFirst (collectElems pdes) [] false with
      | error e => rfl
      | ok elems =>
        cases h : generatePartitionsLoop pn .range (extract_tablename_from_options po).2
            pam penc_cls fuel elems { tablename := none, level := level, partnum := 0 } with
        | error e => simp [h, Except.map]
        | ok res =>
          obtain ⟨res1, res2⟩ := res
          simp [h, Except.map]

/-- Counterexample for C6 as stated: two RANGE elements declared as
`[10,20)` then `[1,10)` are processed in that (natural) order — their
descriptors are numbered prt_1 and prt_2 — but the list returned by
`generatePartitions` is the boundary-sorted `[prt_2, prt_1]`, not the
natural processing order `[prt_1, prt_2]`: for the RANGE strategy the sort
is not internal-only. -/
theorem range_returns_sorted_order_counterexample :
    naturalOrderPartitionsSpec "t" .range 1
        [ .defElem { boundSpec := some (.rangeSpec (some [10]) (some [20]) false none) },
          .defElem { boundSpec := some (.rangeSpec (some [1]) (some [10]) false none) } ]
        [] none [] 10 =
      .ok [ { relname := "t_1_prt_1",
              partbound := { lowerdatums := [.val 10], upperdatums := [.val 20] } },
            { relname := "t_1_prt_2",
              partbound := { lowerdatums := [.val 1], upperdatums := [.val 10] } } ] ∧
    generatePartitions "t" .range 1
        [ .defElem { boundSpec := some (.rangeSpec (some [10]) (some [20]) false none) },
          .defElem { boundSpec := some (.rangeSpec (some [1]) (some [10]) false none) } ]
        [] none [] 10 =
      .ok [ { relname := "t_1_prt_2",
              partbound := { lowerdatums := [.val 1], upperdatums := [.val 10] } },
            { relname := "t_1_prt_1",
              partbound := { lowerdatums := [.val 10], upperdatums := [.val 20] } } ] ∧
    ([ { relname := "t_1_prt_2",
         partbound := { lowerdatums := [.val 1], upperdatums := [.val 10] } },
       { relname := "t_1_prt_1",
         partbound := { lowerdatums := [.val 10], upperdatums := [.val 20] } } ] :
       List CreateStmt) ≠
      [ { relname := "t_1_prt_1",
          partbound := { lowerdatums := [.val 10], upperdatums := [.val 20] } },
        { relname := "t_1_prt_2",
          partbound := { lowerdatums := [.val 1], upperdatums := [.val 10] } } ] :=
  ⟨rfl, rfl, by decide⟩

end PartitionGp
